import Mathlib

/-!
Verification of the polyratings AI-summary generator
(`src/generate_ai_summaries.js`) against its natural-language
specification.

Strings are modelled as `List Char`; JavaScript truthiness on strings
(`undefined` and `""` are falsy) is made explicit.  The script's
aggregation (`convertCSVToProfessorData`), the summary client
(`callAISummary`) and the main batch/state controller (`main`) are
embedded as pure functions; network behaviour is an oracle giving the
outcome of each attempt, and the controller produces an ordered event
trace (state writes, result writes, summary calls, sleeps).
-/

set_option autoImplicit false

namespace PolyratingsAI

abbrev Str := List Char

/-- The whitespace class used by JavaScript `trim` / `\s` (common subset). -/
def isJsWs (c : Char) : Bool :=
  c == ' ' || c == '\t' || c == '\n' || c == '\r' || c == '\x0b' || c == '\x0c' || c == ' '

/-- JavaScript `String.prototype.trim`. -/
def jsTrim (s : Str) : Str :=
  ((s.dropWhile isJsWs).reverse.dropWhile isJsWs).reverse

/-- Helper for `replWs`: `prevWs` records whether the previous character was
whitespace, so only the first character of each whitespace run emits `'-'`. -/
def replWsAux : Bool → List Char → List Char
  | _, [] => []
  | prevWs, c :: rest =>
    if isJsWs c then
      if prevWs then replWsAux true rest else '-' :: replWsAux true rest
    else c :: replWsAux false rest

/-- JavaScript `s.replace(/\s+/g, "-")`: each maximal whitespace run becomes one hyphen. -/
def replWs (s : List Char) : List Char := replWsAux false s

/-- `profName.toLowerCase().replace(/\s+/g, "-")` (ASCII lowercasing). -/
def slugify (s : Str) : Str := replWs (s.map Char.toLower)

def digitsToNat (ds : List Char) : Nat :=
  ds.foldl (fun n c => n * 10 + (c.toNat - '0'.toNat)) 0

/-- JavaScript `parseInt` (radix 10): `none` is NaN. -/
def jsParseInt : Option Str → Option Int
  | none => none
  | some s =>
    let t := s.dropWhile isJsWs
    let p : Int × Str := match t with
      | '-' :: r => (-1, r)
      | '+' :: r => (1, r)
      | _ => (1, t)
    let ds := p.2.takeWhile Char.isDigit
    if ds.isEmpty then none else some (p.1 * (digitsToNat ds : Int))

/-- JavaScript `parseFloat`: `none` is NaN. -/
def jsParseFloat : Option Str → Option Rat
  | none => none
  | some s =>
    let t := s.dropWhile isJsWs
    let p : Rat × Str := match t with
      | '-' :: r => (-1, r)
      | '+' :: r => (1, r)
      | _ => (1, t)
    let ip := p.2.takeWhile Char.isDigit
    let rest := p.2.dropWhile Char.isDigit
    let q : List Char × Str := match rest with
      | '.' :: r => (r.takeWhile Char.isDigit, r.dropWhile Char.isDigit)
      | _ => ([], rest)
    if ip.isEmpty && q.1.isEmpty then none
    else
      let mantissa : Rat := (digitsToNat ip : Rat) + (digitsToNat q.1 : Rat) / (10 : Rat) ^ q.1.length
      let ex : Int := match q.2 with
        | 'e' :: '-' :: r2 => -((digitsToNat (r2.takeWhile Char.isDigit) : Int))
        | 'e' :: '+' :: r2 => (digitsToNat (r2.takeWhile Char.isDigit) : Int)
        | 'e' :: r2 => (digitsToNat (r2.takeWhile Char.isDigit) : Int)
        | 'E' :: '-' :: r2 => -((digitsToNat (r2.takeWhile Char.isDigit) : Int))
        | 'E' :: '+' :: r2 => (digitsToNat (r2.takeWhile Char.isDigit) : Int)
        | 'E' :: r2 => (digitsToNat (r2.takeWhile Char.isDigit) : Int)
        | _ => 0
      some (p.1 * mantissa * (10 : Rat) ^ ex)

/-- `parseFloat(x) || 0`: NaN (and 0 itself) becomes 0. -/
def floatOr0 (o : Option Str) : Rat :=
  match jsParseFloat o with
  | some x => x
  | none => 0

/-- `parseInt(x) || 0`. -/
def intOr0 (o : Option Str) : Int :=
  match jsParseInt o with
  | some x => x
  | none => 0

/-- JavaScript `a || d` for an optional string `a`: `undefined` and `""` are falsy. -/
def jsOrStr (o : Option Str) (d : Str) : Str :=
  match o with
  | some s => if s.isEmpty then d else s
  | none => d

/-- Template interpolation of a possibly-undefined string: renders `"undefined"` when absent. -/
def jsUndefStr (o : Option Str) : Str :=
  match o with
  | some s => s
  | none => "undefined".data

/-- A parsed row of `professors_data.csv` (missing columns are `none`). -/
structure RatingsRow where
  fullName : Option Str := none
  overallRating : Option Str := none
  numEvals : Option Str := none
  id : Option Str := none
  materialClear : Option Str := none
  studentDifficulties : Option Str := none
  department : Option Str := none
  courses : Option Str := none
deriving DecidableEq

/-- A parsed row of `professor_detailed_reviews.csv`. -/
structure CommentsRow where
  professor_name : Option Str := none
  rating_text : Option Str := none
  professor_id : Option Str := none
  professor_department : Option Str := none
  course_code : Option Str := none
  grade_level : Option Str := none
  grade : Option Str := none
deriving DecidableEq

/-- The in-progress per-professor record held in `professorMap`. -/
structure ProfRaw where
  name : Str
  rating : Rat
  numEvals : Int
  link : Str
  clarity : Rat
  helpfulness : Rat
  department : Str
  courses : Str
  allComments : List Str
  gradeLevels : List Str
  grades : List Str
deriving DecidableEq

/-- The finalized professor record (`allComments` joined/truncated into `comments`). -/
structure Prof where
  name : Str
  rating : Rat
  numEvals : Int
  link : Str
  clarity : Rat
  helpfulness : Rat
  department : Str
  courses : Str
  comments : Str
  gradeLevels : List Str
  grades : List Str
deriving DecidableEq

/-- Insertion-ordered map, as a JavaScript `Map` (set on an existing key keeps its slot). -/
abbrev PMap := List (Str × ProfRaw)

def pHas (m : PMap) (k : Str) : Bool := m.any (fun e => e.1 == k)

def pGet : PMap → Str → Option ProfRaw
  | [], _ => none
  | (k1, v) :: rest, k => if k1 == k then some v else pGet rest k

def pSet : PMap → Str → ProfRaw → PMap
  | [], k, v => [(k, v)]
  | (k1, v1) :: rest, k, v =>
    if k1 == k then (k1, v) :: rest else (k1, v1) :: pSet rest k v

def urlBase : Str := "https://polyratings.dev/professor/".data

/-- One ratings row of the first `forEach` in `convertCSVToProfessorData`. -/
def ratingsStep (m : PMap) (row : RatingsRow) : PMap :=
  match row.fullName with
  | none => m
  | some raw =>
    let profName := jsTrim raw
    if profName.isEmpty then m
    else
      pSet m profName
        { name := profName
          rating := floatOr0 row.overallRating
          numEvals := intOr0 row.numEvals
          link := urlBase ++ jsUndefStr row.id
          clarity := floatOr0 row.materialClear
          helpfulness := floatOr0 row.studentDifficulties
          department := jsOrStr row.department []
          courses := jsOrStr row.courses []
          allComments := []
          gradeLevels := []
          grades := [] }

/-- The record synthesized for a comments row whose professor is not yet in the map. -/
def newCommentProf (row : CommentsRow) (profName : Str) : ProfRaw :=
  { name := profName
    rating := 0
    numEvals := 0
    link := urlBase ++ jsOrStr row.professor_id (slugify profName)
    clarity := 0
    helpfulness := 0
    department := jsOrStr row.professor_department []
    courses := jsOrStr row.course_code []
    allComments := []
    gradeLevels := []
    grades := [] }

/-- Appending a comments row's text / grade tags to an existing record. -/
def pushComment (row : CommentsRow) (p : ProfRaw) : ProfRaw :=
  let comment := jsOrStr row.rating_text []
  let p1 :=
    if (jsTrim comment).isEmpty then p
    else { p with allComments := p.allComments ++ [jsTrim comment] }
  let p2 := match row.grade_level with
    | some gl => if gl.isEmpty || gl == "N/A".data then p1
                 else { p1 with gradeLevels := p1.gradeLevels ++ [gl] }
    | none => p1
  match row.grade with
  | some g => if g.isEmpty || g == "N/A".data then p2
              else { p2 with grades := p2.grades ++ [g] }
  | none => p2

/-- One comments row of the second `forEach` in `convertCSVToProfessorData`. -/
def commentsStep (m : PMap) (row : CommentsRow) : PMap :=
  match row.professor_name with
  | none => m
  | some raw =>
    let profName := jsTrim raw
    if profName.isEmpty then m
    else
      let m1 := if pHas m profName then m else pSet m profName (newCommentProf row profName)
      match pGet m1 profName with
      | some p => pSet m1 profName (pushComment row p)
      | none => m1

def sepStr : Str := " | ".data

/-- `Array.prototype.join` with a separator. -/
def joinSep (sep : Str) : List Str → Str
  | [] => []
  | [c] => c
  | c :: rest => c ++ sep ++ joinSep sep rest

/-- Does `sep` occur in `s` starting exactly at index `i`? -/
def occursAtB (s sep : Str) (i : Nat) : Bool := sep.isPrefixOf (s.drop i)

/-- JavaScript `s.lastIndexOf(sep, pos)`: the greatest start index `≤ pos`
of an occurrence, or `-1`. -/
def lastIndexFrom (s sep : Str) : Nat → Int
  | 0 => if occursAtB s sep 0 then 0 else -1
  | i + 1 => if occursAtB s sep (i + 1) then ((i : Int) + 1) else lastIndexFrom s sep i

def commentCutoff : Nat := 1200

/-- The comment-bounding policy of `convertCSVToProfessorData`'s final `map`. -/
def truncateJoined (joined : Str) : Str :=
  if commentCutoff < joined.length then
    let lastPipe := lastIndexFrom joined sepStr commentCutoff
    if 0 < lastPipe then joined.take lastPipe.toNat else joined.take commentCutoff
  else joined

def finalizeProf (p : ProfRaw) : Prof :=
  { name := p.name
    rating := p.rating
    numEvals := p.numEvals
    link := p.link
    clarity := p.clarity
    helpfulness := p.helpfulness
    department := p.department
    courses := p.courses
    comments := truncateJoined (joinSep sepStr p.allComments)
    gradeLevels := p.gradeLevels
    grades := p.grades }

/-- `convertCSVToProfessorData(ratingsData, commentsData)`. -/
def convertCSVToProfessorData (ratingsData : List RatingsRow) (commentsData : List CommentsRow) :
    List Prof :=
  (commentsData.foldl commentsStep (ratingsData.foldl ratingsStep [])).map
    (fun e => finalizeProf e.2)

def fallbackSentinel : Str := "AI summary unavailable.".data

/-- The deterministic message returned when a record has no usable data. -/
def insufficientMsg (prof : Prof) : Str :=
  "Professor ".data ++ prof.name ++
    " has limited reviews available. More student feedback is needed to generate a comprehensive summary.\n\n".data
    ++ prof.link

/-- The observable outcome of one `fetch` attempt against the Groq endpoint:
a thrown transport/parse error, a non-success HTTP status, or a success
response carrying the optional `choices[0].message.content` field. -/
inductive Outcome where
  | netError : Outcome
  | httpError (status : Nat) : Outcome
  | success (content : Option Str) : Outcome
deriving DecidableEq

/-- What one invocation of `callAISummary` did: the returned string, the
number of `fetch` calls issued, and the sleeps performed (ms, in order). -/
structure CallTrace where
  result : Str
  calls : Nat
  sleeps : List Nat
deriving DecidableEq

/-- The retry loop of `callAISummary` (`for attempt = 1..retries`); `fuel`
counts the iterations the loop guard still allows, so running out of fuel is
falling off the loop and hitting the final `return "AI summary unavailable."`. -/
def loopFrom (outcomes : Nat → Outcome) (retries : Nat) : Nat → Nat → CallTrace
  | 0, _ => { result := fallbackSentinel, calls := 0, sleeps := [] }
  | fuel + 1, attempt =>
    match outcomes attempt with
    | Outcome.netError =>
      if attempt < retries then
        let rest := loopFrom outcomes retries fuel (attempt + 1)
        { result := rest.result, calls := rest.calls + 1, sleeps := 2000 * attempt :: rest.sleeps }
      else { result := fallbackSentinel, calls := 1, sleeps := [] }
    | Outcome.httpError status =>
      if status == 429 then
        let rest := loopFrom outcomes retries fuel (attempt + 1)
        { result := rest.result, calls := rest.calls + 1,
          sleeps := 2 ^ attempt * 3000 :: rest.sleeps }
      else if attempt < retries then
        let rest := loopFrom outcomes retries fuel (attempt + 1)
        { result := rest.result, calls := rest.calls + 1, sleeps := 2000 * attempt :: rest.sleeps }
      else { result := fallbackSentinel, calls := 1, sleeps := [] }
    | Outcome.success content =>
      match content with
      | none => { result := fallbackSentinel, calls := 1, sleeps := [] }
      | some raw =>
        let text := jsTrim raw
        if text.isEmpty then { result := fallbackSentinel, calls := 1, sleeps := [] }
        else { result := text, calls := 1, sleeps := [] }

/-- `callAISummary(prof, retries)`, with the network abstracted by `outcomes`
(the result of attempt number `a` is `outcomes a`).  Total: every branch of
the source returns a string, exceptions being confined by the `try/catch`. -/
def callAISummary (prof : Prof) (outcomes : Nat → Outcome) (retries : Nat) : CallTrace :=
  if prof.numEvals == 0 || prof.comments.isEmpty || (jsTrim prof.comments).isEmpty then
    { result := insufficientMsg prof, calls := 0, sleeps := [] }
  else loopFrom outcomes retries retries 1

/-- Ordered observable events of a `main` run. -/
inductive Event where
  | stateWrite (n : Nat) : Event
  | resultsWrite : Event
  | callProf (name : Str) : Event
  | sleepEv (ms : Nat) : Event
deriving DecidableEq

/-- The results object loaded from / saved to `ai_summaries.json`. -/
abbrev RMap := List (Str × Str)

def rGet : RMap → Str → Option Str
  | [], _ => none
  | (k, v) :: rest, n => if k == n then some v else rGet rest n

def rSet : RMap → Str → Str → RMap
  | [], n, v => [(n, v)]
  | (k, w) :: rest, n, v => if k == n then (k, v) :: rest else (k, w) :: rSet rest n v

/-- `results[name] && results[name] !== "AI summary unavailable."`:
JavaScript truthiness, so a missing key and an empty string both fail. -/
def isGoodSummary : Option Str → Bool
  | none => false
  | some v => !v.isEmpty && !(v == fallbackSentinel)

/-- The `for` loop of `main` over the selected batch.  `summarize prof` is
the string `await callAISummary(prof)` would return for `prof` this run.
Returns the updated results object and the loop's event trace. -/
def processBatch (weekly : Bool) (summarize : Prof → Str) : List Prof → RMap → RMap × List Event
  | [], results => (results, [])
  | prof :: rest, results =>
    if !weekly && isGoodSummary (rGet results prof.name) then
      processBatch weekly summarize rest results
    else
      let summary := summarize prof
      let results1 :=
        if weekly && summary == fallbackSentinel && isGoodSummary (rGet results prof.name) then
          results
        else rSet results prof.name summary
      let step := processBatch weekly summarize rest results1
      (step.1, Event.callProf prof.name ::
        ((if rest.isEmpty then [] else [Event.sleepEv 5000]) ++ step.2))

structure RunResult where
  results : RMap
  finalState : Nat
  events : List Event
deriving DecidableEq

def dailyBatchSize : Nat := 200

/-- One invocation of `main` after the professor list has been built:
mode selection, batch/slice selection, the loop, and the write-back of
`ai_summaries.json` and `state.json`.  In weekly mode the source calls
`saveState({ lastIndex: 0 })` already before the loop. -/
def runMain (weekly : Bool) (professors : List Prof) (initResults : RMap) (lastIndex : Nat)
    (summarize : Prof → Str) : RunResult :=
  if weekly then
    let step := processBatch true summarize professors initResults
    { results := step.1
      finalState := 0
      events := Event.stateWrite 0 :: step.2 ++ [Event.resultsWrite, Event.stateWrite 0] }
  else
    let endIndex := min (lastIndex + dailyBatchSize) professors.length
    let batch := (professors.drop lastIndex).take (endIndex - lastIndex)
    let step := processBatch false summarize batch initResults
    let nextIndex := if professors.length ≤ endIndex then 0 else endIndex
    { results := step.1
      finalState := nextIndex
      events := step.2 ++ [Event.resultsWrite, Event.stateWrite nextIndex] }

/-- The results object after the loop body for `prof` in the non-skip path
(weekly keep-or-store decision of `main`). -/
def pbNext (weekly : Bool) (summarize : Prof → Str) (prof : Prof) (results : RMap) : RMap :=
  if weekly && summarize prof == fallbackSentinel && isGoodSummary (rGet results prof.name) then
    results
  else rSet results prof.name (summarize prof)

/-- Is the event a write to a persisted file (`state.json` or `ai_summaries.json`)? -/
def isWriteEv : Event → Bool
  | Event.stateWrite _ => true
  | Event.resultsWrite => true
  | _ => false

/-- Is the event a Summary Client call? -/
def isCallEv : Event → Bool
  | Event.callProf _ => true
  | _ => false

/-- Does some persistence write precede a later Summary Client call in the trace? -/
def writeBeforeCall : List Event → Bool
  | [] => false
  | e :: rest => (isWriteEv e && rest.any isCallEv) || writeBeforeCall rest

/-- Did the attempt fail (thrown error or non-success status)? -/
def isFailure : Outcome → Bool
  | Outcome.success _ => false
  | _ => true

/-- The sleep performed by `callAISummary` after a failed attempt `a`:
exponential from 429, linear otherwise, and none after the final non-429
failure. -/
def failDelay (o : Outcome) (a retries : Nat) : List Nat :=
  match o with
  | Outcome.httpError status =>
    if status == 429 then [2 ^ a * 3000]
    else if a < retries then [2000 * a] else []
  | Outcome.netError => if a < retries then [2000 * a] else []
  | Outcome.success _ => []

/-- A concrete professor record used to instantiate general theorems. -/
def demoProf : Prof :=
  { name := "A".data
    rating := 3
    numEvals := 5
    link := "https://polyratings.dev/professor/1".data
    clarity := 3
    helpfulness := 2
    department := "CSC".data
    courses := "CSC101".data
    comments := "great class".data
    gradeLevels := []
    grades := [] }

/-- A concrete professor record with no evaluations. -/
def demoProfNoData : Prof :=
  { name := "B".data
    rating := 0
    numEvals := 0
    link := "https://polyratings.dev/professor/2".data
    clarity := 0
    helpfulness := 0
    department := []
    courses := []
    comments := []
    gradeLevels := []
    grades := [] }

/-- A summarizer that always succeeds with `"X"`. -/
def demoSummX : Prof → Str := fun _ => "X".data

/-- A summarizer whose every call fails to the fallback sentinel. -/
def demoSummFail : Prof → Str := fun _ => fallbackSentinel

/-- A network oracle that always yields HTTP 500. -/
def demoOutcomes500 : Nat → Outcome := fun _ => Outcome.httpError 500

/-- A comment list whose join exceeds the 1200-character cutoff. -/
def csWitness : List Str := [List.replicate 700 'a', List.replicate 700 'b']

/-- The fields of a record that a comments row never alters (it only appends
to the comment / grade lists). -/
def sameCore (q p : ProfRaw) : Prop :=
  q.name = p.name ∧ q.rating = p.rating ∧ q.numEvals = p.numEvals ∧
  q.clarity = p.clarity ∧ q.helpfulness = p.helpfulness ∧ q.link = p.link

/-- A concrete ratings row carrying an id. -/
def demoRatingsId : RatingsRow :=
  { fullName := some "A B".data, overallRating := some "3.5".data,
    numEvals := some "10".data, id := some "7".data }

/-- A concrete ratings row with no id column. -/
def demoRatingsNoId : RatingsRow := { fullName := some "Jane Doe".data }

/-- A concrete comments row carrying an explicit professor id. -/
def demoCommentsId : CommentsRow :=
  { professor_name := some "Jane A. Doe".data, rating_text := some "hi".data,
    professor_id := some "42".data }

/-- A concrete comments row with no professor id. -/
def demoCommentsNoId : CommentsRow :=
  { professor_name := some "Jane A. Doe".data, rating_text := some "later".data }

theorem rGet_rSet_self (m : RMap) (k v : Str) : rGet (rSet m k v) k = some v := by
  induction m with
  | nil => simp [rSet, rGet]
  | cons e rest ih =>
    obtain ⟨k1, w⟩ := e
    by_cases h : k1 = k
    · simp [rSet, rGet, h]
    · simp [rSet, rGet, h, ih]

theorem rGet_rSet_ne (m : RMap) (k n v : Str) (h : k ≠ n) :
    rGet (rSet m k v) n = rGet m n := by
  induction m with
  | nil => simp [rSet, rGet, h]
  | cons e rest ih =>
    obtain ⟨k1, w⟩ := e
    by_cases h1 : k1 = k
    · subst h1
      simp [rSet, rGet, h]
    · by_cases h2 : k1 = n
      · subst h2
        simp [rSet, rGet, h1]
      · simp [rSet, rGet, h1, h2, ih]

theorem isGoodSummary_true (v : Str) (hne : v ≠ []) (hnf : v ≠ fallbackSentinel) :
    isGoodSummary (some v) = true := by
  simp [isGoodSummary, hne, hnf, List.isEmpty_iff]

/-- Unfolding equation of the loop body: either the daily skip, or a call
followed by the keep-or-store update `pbNext`. -/
theorem processBatch_cons (weekly : Bool) (f : Prof → Str) (p : Prof) (rest : List Prof)
    (results : RMap) :
    processBatch weekly f (p :: rest) results =
      if !weekly && isGoodSummary (rGet results p.name) then
        processBatch weekly f rest results
      else
        ((processBatch weekly f rest (pbNext weekly f p results)).1,
          Event.callProf p.name ::
            ((if rest.isEmpty then [] else [Event.sleepEv 5000])
              ++ (processBatch weekly f rest (pbNext weekly f p results)).2)) := rfl

theorem rGet_pbNext_ne (weekly : Bool) (f : Prof → Str) (p : Prof) (results : RMap) (n : Str)
    (hpn : p.name ≠ n) : rGet (pbNext weekly f p results) n = rGet results n := by
  unfold pbNext
  split
  · rfl
  · exact rGet_rSet_ne _ _ _ _ hpn

theorem processBatch_no_write (weekly : Bool) (f : Prof → Str) (batch : List Prof)
    (results : RMap) : ∀ e ∈ (processBatch weekly f batch results).2, isWriteEv e = false := by
  induction batch generalizing results with
  | nil => simp [processBatch]
  | cons p rest ih =>
    intro e he
    rw [processBatch_cons] at he
    split at he
    · exact ih results e he
    · simp only [List.mem_cons, List.mem_append] at he
      rcases he with h1 | h2 | h3
      · simp [h1, isWriteEv]
      · by_cases hre : rest.isEmpty
        · simp [hre] at h2
        · simp [hre] at h2
          simp [h2, isWriteEv]
      · exact ih _ e h3

theorem processBatch_calls_sub (weekly : Bool) (f : Prof → Str) (batch : List Prof)
    (results : RMap) (n : Str)
    (h : Event.callProf n ∈ (processBatch weekly f batch results).2) :
    n ∈ batch.map Prof.name := by
  induction batch generalizing results with
  | nil => simp [processBatch] at h
  | cons p rest ih =>
    rw [processBatch_cons] at h
    split at h
    · exact List.mem_cons_of_mem _ (ih results h)
    · simp only [List.mem_cons, List.mem_append] at h
      rcases h with h1 | h2 | h3
      · injection h1 with hn
        simp [hn]
      · by_cases hre : rest.isEmpty <;> simp [hre] at h2
      · exact List.mem_cons_of_mem _ (ih _ h3)

theorem processBatch_daily_preserve (f : Prof → Str) (batch : List Prof) (results : RMap)
    (n v : Str) (h : rGet results n = some v) (hgood : isGoodSummary (some v) = true) :
    Event.callProf n ∉ (processBatch false f batch results).2 ∧
      rGet (processBatch false f batch results).1 n = some v := by
  induction batch generalizing results with
  | nil =>
    refine ⟨by simp [processBatch], ?_⟩
    simpa [processBatch] using h
  | cons p rest ih =>
    rw [processBatch_cons]
    split
    · exact ih results h
    · rename_i hskip
      have hpn : p.name ≠ n := by
        intro heq
        rw [heq, h] at hskip
        simp [hgood] at hskip
      have hres1 : rGet (pbNext false f p results) n = some v := by
        rw [rGet_pbNext_ne _ _ _ _ _ hpn]
        exact h
      have step := ih (pbNext false f p results) hres1
      refine ⟨?_, step.2⟩
      intro hmem
      simp only [List.mem_cons, List.mem_append] at hmem
      rcases hmem with h1 | h2 | h3
      · injection h1 with hn
        exact hpn hn.symm
      · by_cases hre : rest.isEmpty <;> simp [hre] at h2
      · exact step.1 h3

theorem processBatch_weekly_preserve (f : Prof → Str) (batch : List Prof) (results : RMap)
    (n v : Str) (h : rGet results n = some v) (hgood : isGoodSummary (some v) = true)
    (hall : ∀ p ∈ batch, p.name = n → f p = fallbackSentinel) :
    rGet (processBatch true f batch results).1 n = some v := by
  induction batch generalizing results with
  | nil => simpa [processBatch] using h
  | cons p rest ih =>
    rw [processBatch_cons, if_neg (by simp)]
    have hall' : ∀ q ∈ rest, q.name = n → f q = fallbackSentinel :=
      fun q hq => hall q (List.mem_cons_of_mem _ hq)
    by_cases hpn : p.name = n
    · have hf : f p = fallbackSentinel := hall p (List.mem_cons_self _ _) hpn
      have hpb : pbNext true f p results = results := by
        simp [pbNext, hf, hpn, h, hgood]
      show rGet (processBatch true f rest (pbNext true f p results)).1 n = some v
      rw [hpb]
      exact ih results h hall'
    · show rGet (processBatch true f rest (pbNext true f p results)).1 n = some v
      refine ih _ ?_ hall'
      rw [rGet_pbNext_ne _ _ _ _ _ hpn]
      exact h

theorem processBatch_calls_complete (f : Prof → Str) (batch : List Prof) (results : RMap)
    (hnd : (batch.map Prof.name).Nodup) :
    ∀ p ∈ batch, isGoodSummary (rGet results p.name) = false →
      Event.callProf p.name ∈ (processBatch false f batch results).2 := by
  induction batch generalizing results with
  | nil => simp
  | cons q rest ih =>
    intro p hp hbad
    simp only [List.map_cons, List.nodup_cons] at hnd
    rcases List.mem_cons.mp hp with hpq | hpr
    · subst hpq
      rw [processBatch_cons, if_neg (by simp [hbad])]
      exact List.mem_cons_self _ _
    · have hqp : q.name ≠ p.name := by
        intro heq
        exact hnd.1 (by rw [heq]; exact List.mem_map_of_mem Prof.name hpr)
      rw [processBatch_cons]
      split
      · exact ih results hnd.2 p hpr hbad
      · have hbad1 : isGoodSummary (rGet (pbNext false f q results) p.name) = false := by
          rw [rGet_pbNext_ne _ _ _ _ _ hqp]
          exact hbad
        exact List.mem_cons_of_mem _
          (List.mem_append_right _ (ih _ hnd.2 p hpr hbad1))

/-- Unfolding equation of `runMain` in daily (batched) mode. -/
theorem runMain_daily_eq (professors : List Prof) (initResults : RMap) (lastIndex : Nat)
    (summarize : Prof → Str) :
    runMain false professors initResults lastIndex summarize =
      { results := (processBatch false summarize
          ((professors.drop lastIndex).take
            (min (lastIndex + dailyBatchSize) professors.length - lastIndex)) initResults).1
        finalState := if professors.length ≤ min (lastIndex + dailyBatchSize) professors.length
          then 0 else min (lastIndex + dailyBatchSize) professors.length
        events := (processBatch false summarize
          ((professors.drop lastIndex).take
            (min (lastIndex + dailyBatchSize) professors.length - lastIndex)) initResults).2
          ++ [Event.resultsWrite, Event.stateWrite
            (if professors.length ≤ min (lastIndex + dailyBatchSize) professors.length
              then 0 else min (lastIndex + dailyBatchSize) professors.length)] } := rfl

/-- Unfolding equation of `runMain` in weekly (full-regeneration) mode. -/
theorem runMain_weekly_eq (professors : List Prof) (initResults : RMap) (lastIndex : Nat)
    (summarize : Prof → Str) :
    runMain true professors initResults lastIndex summarize =
      { results := (processBatch true summarize professors initResults).1
        finalState := 0
        events := Event.stateWrite 0 :: (processBatch true summarize professors initResults).2
          ++ [Event.resultsWrite, Event.stateWrite 0] } := rfl

/-- A name whose stored summary is non-empty and non-fallback is neither
called nor overwritten by a daily run. -/
theorem runMain_daily_no_call (professors : List Prof) (initResults : RMap) (lastIndex : Nat)
    (summarize : Prof → Str) (n v : Str) (h : rGet initResults n = some v)
    (hne : v ≠ []) (hnf : v ≠ fallbackSentinel) :
    Event.callProf n ∉ (runMain false professors initResults lastIndex summarize).events ∧
      rGet (runMain false professors initResults lastIndex summarize).results n = some v := by
  rw [runMain_daily_eq]
  have hstep := processBatch_daily_preserve summarize
    ((professors.drop lastIndex).take
      (min (lastIndex + dailyBatchSize) professors.length - lastIndex))
    initResults n v h (isGoodSummary_true v hne hnf)
  refine ⟨?_, hstep.2⟩
  intro hmem
  rcases List.mem_append.mp hmem with h1 | h2
  · exact hstep.1 h1
  · simp at h2

/-- **C1**: in bounded-batch (daily) mode the run processes exactly the
sub-range `[lastIndex, min(lastIndex + B, L))` with `B = 200`: every summary
call is for a professor of that slice and every professor of the slice
without a prior good stored summary is called; the cursor persisted at run
end equals `0` when `lastIndex + B ≥ L` and `lastIndex + B` otherwise. -/
theorem claim_daily_batch_range_and_cursor (professors : List Prof) (initResults : RMap)
    (lastIndex : Nat) (summarize : Prof → Str)
    (hnd : (professors.map Prof.name).Nodup) :
    (runMain false professors initResults lastIndex summarize).finalState
        = (if professors.length ≤ lastIndex + dailyBatchSize then 0
           else lastIndex + dailyBatchSize) ∧
    (∀ n, Event.callProf n ∈ (runMain false professors initResults lastIndex summarize).events →
      n ∈ ((professors.drop lastIndex).take
        (min (lastIndex + dailyBatchSize) professors.length - lastIndex)).map Prof.name) ∧
    (∀ p ∈ (professors.drop lastIndex).take
        (min (lastIndex + dailyBatchSize) professors.length - lastIndex),
      isGoodSummary (rGet initResults p.name) = false →
        Event.callProf p.name ∈ (runMain false professors initResults lastIndex summarize).events) := by
  rw [runMain_daily_eq]
  refine ⟨?_, ?_, ?_⟩
  · by_cases hle : professors.length ≤ lastIndex + dailyBatchSize
    · simp [Nat.min_eq_right hle, hle]
    · have hge : lastIndex + dailyBatchSize ≤ professors.length :=
        Nat.le_of_lt (Nat.lt_of_not_le hle)
      simp [Nat.min_eq_left hge, hle]
  · intro n hn
    rcases List.mem_append.mp hn with h1 | h2
    · exact processBatch_calls_sub false summarize _ initResults n h1
    · simp at h2
  · intro p hp hbad
    have hsub : List.Sublist
        ((professors.drop lastIndex).take
          (min (lastIndex + dailyBatchSize) professors.length - lastIndex)) professors :=
      (List.take_sublist _ _).trans (List.drop_sublist _ _)
    exact List.mem_append_left _
      (processBatch_calls_complete summarize _ initResults
        (hnd.sublist (hsub.map Prof.name)) p hp hbad)

/-- Witness for C1 at a concrete one-professor list with empty store. -/
theorem claim_daily_batch_range_and_cursor_witness :
    ([demoProf].map Prof.name).Nodup ∧
    (runMain false [demoProf] [] 0 demoSummX).finalState =
      (if [demoProf].length ≤ 0 + dailyBatchSize then 0 else 0 + dailyBatchSize) :=
  ⟨by decide, (claim_daily_batch_range_and_cursor [demoProf] [] 0 demoSummX (by decide)).1⟩

/-- **C2** (amended): in full-regeneration (weekly) mode, a pre-run stored
summary that is a *non-empty* non-fallback string is retained unchanged when
every fresh call for that name yields the fallback sentinel.  (The original
claim without non-emptiness fails: see the counterexample.) -/
theorem claim_weekly_regression_guard (professors : List Prof) (initResults : RMap)
    (lastIndex : Nat) (summarize : Prof → Str) (n v : Str)
    (hpre : rGet initResults n = some v) (hne : v ≠ []) (hnf : v ≠ fallbackSentinel)
    (hfb : ∀ p ∈ professors, p.name = n → summarize p = fallbackSentinel) :
    rGet (runMain true professors initResults lastIndex summarize).results n = some v := by
  rw [runMain_weekly_eq]
  exact processBatch_weekly_preserve summarize professors initResults n v hpre
    (isGoodSummary_true v hne hnf) hfb

/-- Counterexample to C2 as stated: the empty string is a non-fallback
string, yet JavaScript truthiness makes `results[name]` falsy, so a weekly
run overwrites it with the fallback sentinel. -/
theorem claim_weekly_regression_cex :
    rGet [(demoProf.name, ([] : Str))] demoProf.name = some [] ∧
    ([] : Str) ≠ fallbackSentinel ∧
    demoSummFail demoProf = fallbackSentinel ∧
    rGet (runMain true [demoProf] [(demoProf.name, ([] : Str))] 0 demoSummFail).results
        demoProf.name = some fallbackSentinel := by
  decide

/-- Witness for the amended C2 at a concrete store holding `"G"`. -/
theorem claim_weekly_regression_guard_witness :
    rGet [(demoProf.name, "G".data)] demoProf.name = some "G".data ∧
    "G".data ≠ ([] : Str) ∧ "G".data ≠ fallbackSentinel ∧
    rGet (runMain true [demoProf] [(demoProf.name, "G".data)] 0 demoSummFail).results
        demoProf.name = some "G".data :=
  ⟨by decide, by decide, by decide,
    claim_weekly_regression_guard [demoProf] [(demoProf.name, "G".data)] 0 demoSummFail
      demoProf.name "G".data (by decide) (by decide) (by decide) (by decide)⟩

/-- **C5** (amended): in bounded-batch (daily) mode, a name whose stored
result exists as a *non-empty* string differing from the fallback sentinel
is never passed to the Summary Client and its stored value is untouched.
(The original claim without non-emptiness fails: see the counterexample.) -/
theorem claim_daily_skip_idempotent (professors : List Prof) (initResults : RMap)
    (lastIndex : Nat) (summarize : Prof → Str) (n v : Str)
    (hpre : rGet initResults n = some v) (hne : v ≠ []) (hnf : v ≠ fallbackSentinel) :
    Event.callProf n ∉ (runMain false professors initResults lastIndex summarize).events ∧
      rGet (runMain false professors initResults lastIndex summarize).results n = some v :=
  runMain_daily_no_call professors initResults lastIndex summarize n v hpre hne hnf

/-- Counterexample to C5 as stated: a stored empty-string result exists and
differs from the fallback sentinel, yet the daily run still calls the
Summary Client for that professor (JavaScript truthiness treats `""` as
absent). -/
theorem claim_daily_skip_cex :
    rGet [(demoProf.name, ([] : Str))] demoProf.name = some [] ∧
    ([] : Str) ≠ fallbackSentinel ∧
    Event.callProf demoProf.name ∈
      (runMain false [demoProf] [(demoProf.name, ([] : Str))] 0 demoSummX).events := by
  decide

/-- Witness for the amended C5 at a concrete store holding `"G"`. -/
theorem claim_daily_skip_idempotent_witness :
    rGet [(demoProf.name, "G".data)] demoProf.name = some "G".data ∧
    "G".data ≠ ([] : Str) ∧ "G".data ≠ fallbackSentinel ∧
    (Event.callProf demoProf.name ∉
        (runMain false [demoProf] [(demoProf.name, "G".data)] 0 demoSummX).events ∧
      rGet (runMain false [demoProf] [(demoProf.name, "G".data)] 0 demoSummX).results
        demoProf.name = some "G".data) :=
  ⟨by decide, by decide, by decide,
    claim_daily_skip_idempotent [demoProf] [(demoProf.name, "G".data)] 0 demoSummX
      demoProf.name "G".data (by decide) (by decide) (by decide)⟩

theorem writeBeforeCall_append_writes (evs : List Event) (k : Nat)
    (h : ∀ e ∈ evs, isWriteEv e = false) :
    writeBeforeCall (evs ++ [Event.resultsWrite, Event.stateWrite k]) = false := by
  induction evs with
  | nil => rfl
  | cons e rest ih =>
    simp only [List.cons_append, writeBeforeCall]
    rw [h e (List.mem_cons_self _ _)]
    simp only [Bool.false_and, Bool.false_or]
    exact ih (fun x hx => h x (List.mem_cons_of_mem _ hx))

/-- **C7** (amended): in daily mode no persistence write precedes any
Summary Client call; in weekly mode the result-store write and the final
cursor write also come after all calls, but the cursor file is additionally
written (reset to 0) once *before* the processing loop — the trace starts
with that state write.  (The original claim fails in weekly mode: see the
counterexample.) -/
theorem claim_write_after_processing (professors : List Prof) (initResults : RMap)
    (lastIndex : Nat) (summarize : Prof → Str) :
    writeBeforeCall (runMain false professors initResults lastIndex summarize).events = false ∧
    (runMain true professors initResults lastIndex summarize).events.head?
        = some (Event.stateWrite 0) ∧
    writeBeforeCall (runMain true professors initResults lastIndex summarize).events.tail
        = false := by
  refine ⟨?_, ?_, ?_⟩
  · rw [runMain_daily_eq]
    exact writeBeforeCall_append_writes _ _ (processBatch_no_write _ _ _ _)
  · rw [runMain_weekly_eq]
    rfl
  · rw [runMain_weekly_eq]
    exact writeBeforeCall_append_writes _ _ (processBatch_no_write _ _ _ _)

/-- Counterexample to C7 as stated: a weekly run writes the cursor file
(`saveState({ lastIndex: 0 })`) before the batch is processed — the trace
begins with a state write that precedes a Summary Client call. -/
theorem claim_write_after_processing_cex :
    writeBeforeCall (runMain true [demoProf] [] 0 demoSummX).events = true ∧
    (runMain true [demoProf] [] 0 demoSummX).events.head? = some (Event.stateWrite 0) ∧
    Event.callProf demoProf.name ∈ (runMain true [demoProf] [] 0 demoSummX).events.tail := by
  decide

/-- **C10**: the insufficient-data message differs from the fallback
sentinel, so once stored it marks the professor as satisfactorily processed
and every subsequent bounded-batch run skips the Summary Client call for
that name. -/
theorem claim_insufficient_not_fallback_skip (prof : Prof) (outcomes : Nat → Outcome)
    (retries : Nat) (h : prof.numEvals = 0 ∨ jsTrim prof.comments = []) :
    (callAISummary prof outcomes retries).result ≠ fallbackSentinel ∧
    ∀ (professors : List Prof) (initResults : RMap) (lastIndex : Nat) (summarize : Prof → Str),
      rGet initResults prof.name = some (callAISummary prof outcomes retries).result →
      Event.callProf prof.name ∉
        (runMain false professors initResults lastIndex summarize).events := by
  have hcond : (prof.numEvals == 0 || prof.comments.isEmpty
      || (jsTrim prof.comments).isEmpty) = true := by
    rcases h with h0 | hc
    · simp [h0]
    · simp [hc]
  have hres : (callAISummary prof outcomes retries).result = insufficientMsg prof := by
    unfold callAISummary
    rw [hcond]
    rfl
  have hP : (insufficientMsg prof).head? = some 'P' := rfl
  have hnf : (callAISummary prof outcomes retries).result ≠ fallbackSentinel := by
    rw [hres]
    intro heq
    have hA : (insufficientMsg prof).head? = some 'A' := by rw [heq]; rfl
    rw [hP] at hA
    exact absurd hA (by decide)
  refine ⟨hnf, ?_⟩
  intro professors initResults lastIndex summarize hstored
  have hne : (callAISummary prof outcomes retries).result ≠ [] := by
    rw [hres]
    intro h0
    rw [h0] at hP
    exact absurd hP (by decide)
  exact (runMain_daily_no_call professors initResults lastIndex summarize prof.name _
    hstored hne hnf).1

/-- Witness for C10 at a concrete zero-evaluation professor. -/
theorem claim_insufficient_not_fallback_skip_witness :
    demoProfNoData.numEvals = 0 ∧
    (callAISummary demoProfNoData demoOutcomes500 3).result ≠ fallbackSentinel ∧
    Event.callProf demoProfNoData.name ∉
      (runMain false [demoProfNoData]
        [(demoProfNoData.name, (callAISummary demoProfNoData demoOutcomes500 3).result)]
        0 demoSummX).events :=
  ⟨rfl, (claim_insufficient_not_fallback_skip demoProfNoData demoOutcomes500 3 (Or.inl rfl)).1,
    (claim_insufficient_not_fallback_skip demoProfNoData demoOutcomes500 3 (Or.inl rfl)).2
      [demoProfNoData] _ 0 demoSummX (by decide)⟩

/-- A failing non-final attempt: one more call, the matching delay, then the
loop continues with the next attempt. -/
theorem loopFrom_fail (outcomes : Nat → Outcome) (retries fuel fuel1 attempt : Nat)
    (hfe : fuel1 = fuel + 1) (hf : isFailure (outcomes attempt) = true)
    (hlt : attempt < retries) :
    loopFrom outcomes retries fuel1 attempt =
      { result := (loopFrom outcomes retries fuel (attempt + 1)).result
        calls := (loopFrom outcomes retries fuel (attempt + 1)).calls + 1
        sleeps := failDelay (outcomes attempt) attempt retries
          ++ (loopFrom outcomes retries fuel (attempt + 1)).sleeps } := by
  subst hfe
  rcases ho : outcomes attempt with _ | s | c
  · simp [loopFrom, ho, failDelay, hlt]
  · by_cases h429 : (s == 429) = true
    · simp [loopFrom, ho, failDelay, h429]
    · simp [loopFrom, ho, failDelay, h429, hlt]
  · rw [ho] at hf
    simp [isFailure] at hf

/-- A failing final attempt returns the fallback sentinel (line 203 of the
source also catches the rate-limited final attempt after its backoff). -/
theorem loopFrom_fail_last (outcomes : Nat → Outcome) (retries fuel1 : Nat)
    (hfe : fuel1 = 0 + 1) (hf : isFailure (outcomes retries) = true) :
    loopFrom outcomes retries fuel1 retries =
      { result := fallbackSentinel, calls := 1
        sleeps := failDelay (outcomes retries) retries retries } := by
  subst hfe
  rcases ho : outcomes retries with _ | s | c
  · simp [loopFrom, ho, failDelay]
  · by_cases h429 : (s == 429) = true
    · simp [loopFrom, ho, failDelay, h429]
    · simp [loopFrom, ho, failDelay, h429]
  · rw [ho] at hf
    simp [isFailure] at hf

/-- **C3**: for a record with usable data, when all 3 attempts fail (thrown
transport error or non-success status, in any mix), `callAISummary` returns
the fixed fallback sentinel — never an exception — after exactly 3 fetch
calls, sleeping `2^attempt * 3000` ms after a rate-limited (429) attempt and
`2000 * attempt` ms after any other non-final failure. -/
theorem claim_summary_fallback_on_exhaustion (prof : Prof) (outcomes : Nat → Outcome)
    (hdata1 : prof.numEvals ≠ 0) (hdata2 : jsTrim prof.comments ≠ [])
    (h1 : isFailure (outcomes 1) = true) (h2 : isFailure (outcomes 2) = true)
    (h3 : isFailure (outcomes 3) = true) :
    (callAISummary prof outcomes 3).result = fallbackSentinel ∧
    (callAISummary prof outcomes 3).calls = 3 ∧
    (callAISummary prof outcomes 3).sleeps =
      failDelay (outcomes 1) 1 3 ++ failDelay (outcomes 2) 2 3 ++ failDelay (outcomes 3) 3 3 := by
  have hcomm : prof.comments ≠ [] := fun hc => hdata2 (by rw [hc]; rfl)
  have hcond : (prof.numEvals == 0 || prof.comments.isEmpty
      || (jsTrim prof.comments).isEmpty) = false := by
    simp [hdata1, hcomm, hdata2]
  have hc : callAISummary prof outcomes 3 = loopFrom outcomes 3 3 1 := by
    unfold callAISummary
    rw [hcond]
    rfl
  rw [hc, loopFrom_fail outcomes 3 2 3 1 rfl h1 (by norm_num),
    loopFrom_fail outcomes 3 1 2 2 rfl h2 (by norm_num),
    loopFrom_fail_last outcomes 3 1 rfl h3]
  refine ⟨rfl, rfl, ?_⟩
  simp [List.append_assoc]

/-- Witness for C3: all three attempts return HTTP 500. -/
theorem claim_summary_fallback_on_exhaustion_witness :
    demoProf.numEvals ≠ 0 ∧ jsTrim demoProf.comments ≠ [] ∧
    (callAISummary demoProf demoOutcomes500 3).result = fallbackSentinel ∧
    (callAISummary demoProf demoOutcomes500 3).calls = 3 :=
  ⟨by decide, by decide,
    (claim_summary_fallback_on_exhaustion demoProf demoOutcomes500 (by decide) (by decide)
      (by decide) (by decide) (by decide)).1,
    (claim_summary_fallback_on_exhaustion demoProf demoOutcomes500 (by decide) (by decide)
      (by decide) (by decide) (by decide)).2.1⟩

/-- **C6**: a record with zero evaluations or an empty (or whitespace-only)
aggregated comment string triggers no fetch call at all — `callAISummary`
returns the deterministic insufficient-data message, which ends with the
record's permalink. -/
theorem claim_insufficient_data (prof : Prof) (outcomes : Nat → Outcome) (retries : Nat)
    (h : prof.numEvals = 0 ∨ jsTrim prof.comments = []) :
    callAISummary prof outcomes retries =
      { result := insufficientMsg prof, calls := 0, sleeps := [] } ∧
    ∃ pre, (callAISummary prof outcomes retries).result = pre ++ prof.link := by
  have hcond : (prof.numEvals == 0 || prof.comments.isEmpty
      || (jsTrim prof.comments).isEmpty) = true := by
    rcases h with h0 | hc
    · simp [h0]
    · simp [hc]
  have heq : callAISummary prof outcomes retries =
      { result := insufficientMsg prof, calls := 0, sleeps := [] } := by
    unfold callAISummary
    rw [hcond]
    rfl
  refine ⟨heq, ⟨"Professor ".data ++ prof.name ++
    " has limited reviews available. More student feedback is needed to generate a comprehensive summary.\n\n".data, ?_⟩⟩
  rw [heq]
  rfl

/-- Witness for C6 at a concrete zero-evaluation professor. -/
theorem claim_insufficient_data_witness :
    (demoProfNoData.numEvals = 0 ∨ jsTrim demoProfNoData.comments = []) ∧
    callAISummary demoProfNoData demoOutcomes500 3 =
      { result := insufficientMsg demoProfNoData, calls := 0, sleeps := [] } :=
  ⟨Or.inl rfl, (claim_insufficient_data demoProfNoData demoOutcomes500 3 (Or.inl rfl)).1⟩

/-- `lastIndexFrom` is JavaScript `lastIndexOf`: either `-1` with no
occurrence at any index `≤ pos`, or the greatest occurrence index `≤ pos`. -/
theorem lastIndexFrom_spec (s sep : Str) (pos : Nat) :
    (lastIndexFrom s sep pos = -1 ∧ ∀ i, i ≤ pos → occursAtB s sep i = false) ∨
    (∃ k : Nat, lastIndexFrom s sep pos = (k : Int) ∧ k ≤ pos ∧ occursAtB s sep k = true ∧
      ∀ j, j ≤ pos → occursAtB s sep j = true → j ≤ k) := by
  induction pos with
  | zero =>
    cases h : occursAtB s sep 0 with
    | true =>
      right
      exact ⟨0, by simp [lastIndexFrom, h], Nat.le_refl 0, h, fun j hj _ => hj⟩
    | false =>
      left
      refine ⟨by simp [lastIndexFrom, h], ?_⟩
      intro i hi
      rw [Nat.le_zero] at hi
      rw [hi]
      exact h
  | succ m ih =>
    cases h : occursAtB s sep (m + 1) with
    | true =>
      right
      refine ⟨m + 1, ?_, Nat.le_refl _, h, fun j hj _ => hj⟩
      simp [lastIndexFrom, h]
    | false =>
      rcases ih with ⟨hneg, hall⟩ | ⟨k, hk, hkle, hocc, hmax⟩
      · left
        refine ⟨by simp [lastIndexFrom, h, hneg], ?_⟩
        intro i hi
        rcases Nat.lt_or_ge i (m + 1) with hlt | hge
        · exact hall i (Nat.lt_succ_iff.mp hlt)
        · rw [Nat.le_antisymm hi hge]
          exact h
      · right
        refine ⟨k, by simp [lastIndexFrom, h, hk], Nat.le_succ_of_le hkle, hocc, ?_⟩
        intro j hj hocc2
        rcases Nat.lt_or_ge j (m + 1) with hlt | hge
        · exact hmax j (Nat.lt_succ_iff.mp hlt) hocc2
        · rw [Nat.le_antisymm hj hge] at hocc2
          rw [hocc2] at h
          cases h

/-- A non-empty string fixed by `trim` does not start with whitespace. -/
theorem trimmed_head_not_ws (d : Char) (t : Str) (h : jsTrim (d :: t) = d :: t) :
    isJsWs d = false := by
  cases hw : isJsWs d with
  | false => rfl
  | true =>
    exfalso
    have hlen : (jsTrim (d :: t)).length ≤ ((d :: t).dropWhile isJsWs).length := by
      unfold jsTrim
      rw [List.length_reverse]
      exact le_trans (List.dropWhile_suffix _).sublist.length_le
        (le_of_eq (List.length_reverse _))
    have hdrop : ((d :: t).dropWhile isJsWs).length ≤ t.length := by
      rw [List.dropWhile_cons]
      simp only [hw, if_true]
      exact (List.dropWhile_suffix _).sublist.length_le
    have h1 : (jsTrim (d :: t)).length ≤ t.length := le_trans hlen hdrop
    rw [h] at h1
    simp at h1

theorem joinSep_cons (sep c : Str) (rest : List Str) :
    ∃ z, joinSep sep (c :: rest) = c ++ z := by
  cases rest with
  | nil => exact ⟨[], by simp [joinSep]⟩
  | cons d r => exact ⟨sep ++ joinSep sep (d :: r), by simp [joinSep]⟩

/-- The join of non-empty trimmed comments never has the separator at
index 0 (it would have to start with a space). -/
theorem no_sep_at_zero (cs : List Str) (hcs : ∀ c ∈ cs, c ≠ [] ∧ jsTrim c = c)
    (hne : cs ≠ []) : occursAtB (joinSep sepStr cs) sepStr 0 = false := by
  cases cs with
  | nil => exact absurd rfl hne
  | cons c rest =>
    obtain ⟨z, hz⟩ := joinSep_cons sepStr c rest
    rcases hcs c (List.mem_cons_self _ _) with ⟨hcne, hct⟩
    obtain ⟨d, t, hdt⟩ := List.exists_cons_of_ne_nil hcne
    have hd : isJsWs d = false := trimmed_head_not_ws d t (by rw [← hdt]; exact hct)
    have hsd : (' ' == d) = false := by
      cases hdd : (' ' == d) with
      | false => rfl
      | true =>
        have hde : ' ' = d := by simpa using hdd
        rw [← hde] at hd
        simp [isJsWs] at hd
    unfold occursAtB
    rw [hz, hdt]
    show (' ' :: '|' :: ' ' :: []).isPrefixOf (((d :: t) ++ z).drop 0) = false
    simp only [List.drop_zero, List.cons_append]
    simp [List.isPrefixOf, hsd]

/-- Zeta-expanded unfolding of the truncation policy. -/
theorem truncateJoined_eq (joined : Str) :
    truncateJoined joined =
      if commentCutoff < joined.length then
        (if 0 < lastIndexFrom joined sepStr commentCutoff
          then joined.take (lastIndexFrom joined sepStr commentCutoff).toNat
          else joined.take commentCutoff)
      else joined := rfl

/-- **C4**: for a list of per-professor comments (non-empty, trimmed) whose
`" | "`-join exceeds the 1200-character cutoff, the truncated string never
exceeds the cutoff; when the separator occurs at some index `≤ 1200` the cut
is exactly at the greatest such occurrence index, and otherwise it is a hard
cut at 1200. -/
theorem claim_comment_truncation (cs : List Str)
    (hcs : ∀ c ∈ cs, c ≠ [] ∧ jsTrim c = c)
    (hlen : commentCutoff < (joinSep sepStr cs).length) :
    (truncateJoined (joinSep sepStr cs)).length ≤ commentCutoff ∧
    (∀ i, i ≤ commentCutoff → occursAtB (joinSep sepStr cs) sepStr i = true →
      ∃ k, k ≤ commentCutoff ∧ occursAtB (joinSep sepStr cs) sepStr k = true ∧
        (∀ j, j ≤ commentCutoff → occursAtB (joinSep sepStr cs) sepStr j = true → j ≤ k) ∧
        truncateJoined (joinSep sepStr cs) = (joinSep sepStr cs).take k) ∧
    ((∀ i, i ≤ commentCutoff → occursAtB (joinSep sepStr cs) sepStr i = false) →
      truncateJoined (joinSep sepStr cs) = (joinSep sepStr cs).take commentCutoff) := by
  have hne : cs ≠ [] := by
    intro h0
    rw [h0] at hlen
    simp [joinSep, commentCutoff] at hlen
  have h0occ : occursAtB (joinSep sepStr cs) sepStr 0 = false := no_sep_at_zero cs hcs hne
  rcases lastIndexFrom_spec (joinSep sepStr cs) sepStr commentCutoff with
    ⟨hneg, hall⟩ | ⟨k, hk, hkle, hocc, hmax⟩
  · have htr : truncateJoined (joinSep sepStr cs) = (joinSep sepStr cs).take commentCutoff := by
      rw [truncateJoined_eq, if_pos hlen, hneg, if_neg (by norm_num)]
    refine ⟨?_, ?_, fun _ => htr⟩
    · rw [htr]
      simp [List.length_take]
    · intro i hi hocc2
      rw [hall i hi] at hocc2
      cases hocc2
  · have hk0 : k ≠ 0 := by
      intro h0
      rw [h0] at hocc
      rw [h0occ] at hocc
      cases hocc
    have hkpos : (0 : Int) < (k : Int) := by exact_mod_cast Nat.pos_of_ne_zero hk0
    have htr : truncateJoined (joinSep sepStr cs) = (joinSep sepStr cs).take k := by
      rw [truncateJoined_eq, if_pos hlen, hk, if_pos hkpos]
      simp
    refine ⟨?_, ?_, ?_⟩
    · rw [htr]
      have hmin : ((joinSep sepStr cs).take k).length ≤ k := by
        simp [List.length_take]
      exact le_trans hmin hkle
    · intro i hi hocc2
      exact ⟨k, hkle, hocc, hmax, htr⟩
    · intro hnone
      rw [hnone k hkle] at hocc
      cases hocc

set_option maxRecDepth 100000 in
/-- Witness for C4 at a concrete 1403-character join of two 700-character
comments. -/
theorem claim_comment_truncation_witness :
    (∀ c ∈ csWitness, c ≠ [] ∧ jsTrim c = c) ∧
    commentCutoff < (joinSep sepStr csWitness).length ∧
    (truncateJoined (joinSep sepStr csWitness)).length ≤ commentCutoff :=
  ⟨by decide, by decide, (claim_comment_truncation csWitness (by decide) (by decide)).1⟩

theorem pGet_pSet_self (m : PMap) (k : Str) (v : ProfRaw) : pGet (pSet m k v) k = some v := by
  induction m with
  | nil => simp [pSet, pGet]
  | cons e rest ih =>
    obtain ⟨k1, w⟩ := e
    by_cases h : k1 = k
    · simp [pSet, pGet, h]
    · simp [pSet, pGet, h, ih]

theorem pGet_pSet_ne (m : PMap) (k n : Str) (v : ProfRaw) (h : k ≠ n) :
    pGet (pSet m k v) n = pGet m n := by
  induction m with
  | nil => simp [pSet, pGet, h]
  | cons e rest ih =>
    obtain ⟨k1, w⟩ := e
    by_cases h1 : k1 = k
    · subst h1
      simp [pSet, pGet, h]
    · by_cases h2 : k1 = n
      · subst h2
        simp [pSet, pGet, h1]
      · simp [pSet, pGet, h1, h2, ih]

theorem pHas_pSet_ne (m : PMap) (k n : Str) (v : ProfRaw) (h : k ≠ n) :
    pHas (pSet m k v) n = pHas m n := by
  induction m with
  | nil => simp [pSet, pHas, h]
  | cons e rest ih =>
    obtain ⟨k1, w⟩ := e
    by_cases h1 : k1 = k
    · subst h1
      simp [pSet, pHas]
    · have ih' := ih
      simp only [pHas] at ih'
      simp [pSet, pHas, h1, ih']

theorem pGet_mem (m : PMap) (k : Str) (p : ProfRaw) (h : pGet m k = some p) : (k, p) ∈ m := by
  induction m with
  | nil => simp [pGet] at h
  | cons e rest ih =>
    obtain ⟨k1, w⟩ := e
    by_cases h1 : k1 = k
    · subst h1
      have hw : w = p := by simpa [pGet] using h
      rw [← hw]
      exact List.mem_cons_self _ _
    · simp [pGet, h1] at h
      exact List.mem_cons_of_mem _ (ih h)

theorem pHas_of_pGet (m : PMap) (k : Str) (p : ProfRaw) (h : pGet m k = some p) :
    pHas m k = true := by
  induction m with
  | nil => simp [pGet] at h
  | cons e rest ih =>
    obtain ⟨k1, w⟩ := e
    by_cases h1 : k1 = k
    · simp [pHas, h1]
    · simp [pGet, h1] at h
      have hrest := ih h
      simp only [pHas, List.any_cons] at hrest ⊢
      rw [hrest]
      simp

/-- A ratings row with a usable name sets its record in the map. -/
theorem ratingsStep_eq_set (m : PMap) (row : RatingsRow) (raw : Str)
    (hr : row.fullName = some raw) (hname : (jsTrim raw).isEmpty = false) :
    ratingsStep m row = pSet m (jsTrim raw)
      { name := jsTrim raw
        rating := floatOr0 row.overallRating
        numEvals := intOr0 row.numEvals
        link := urlBase ++ jsUndefStr row.id
        clarity := floatOr0 row.materialClear
        helpfulness := floatOr0 row.studentDifficulties
        department := jsOrStr row.department []
        courses := jsOrStr row.courses []
        allComments := []
        gradeLevels := []
        grades := [] } := by
  unfold ratingsStep
  rw [hr]
  simp [hname]

/-- A comments row whose professor is absent from the map synthesizes the
new record and then appends the row's comment to it. -/
theorem commentsStep_new (m : PMap) (row : CommentsRow) (raw : Str)
    (hc : row.professor_name = some raw) (hname : (jsTrim raw).isEmpty = false)
    (habs : pHas m (jsTrim raw) = false) :
    commentsStep m row =
      pSet (pSet m (jsTrim raw) (newCommentProf row (jsTrim raw))) (jsTrim raw)
        (pushComment row (newCommentProf row (jsTrim raw))) := by
  unfold commentsStep
  rw [hc]
  simp [hname, habs, pGet_pSet_self]

/-- A comments row whose professor is already in the map only updates that
record with `pushComment`. -/
theorem commentsStep_existing (m : PMap) (row : CommentsRow) (raw : Str) (p : ProfRaw)
    (hc : row.professor_name = some raw) (hname : (jsTrim raw).isEmpty = false)
    (hget : pGet m (jsTrim raw) = some p) :
    commentsStep m row = pSet m (jsTrim raw) (pushComment row p) := by
  unfold commentsStep
  rw [hc]
  simp [hname, pHas_of_pGet m (jsTrim raw) p hget, hget]

/-- `pushComment` never changes the identity and numeric fields or the link. -/
theorem pushComment_fields (row : CommentsRow) (p : ProfRaw) :
    sameCore (pushComment row p) p := by
  unfold sameCore pushComment
  cases hgl : row.grade_level <;> cases hg : row.grade <;> dsimp only <;>
    split_ifs <;> simp

/-- A ratings row that does not carry the (trimmed) name `n` leaves the
entry at `n` alone. -/
theorem ratingsStep_preserve (m : PMap) (row : RatingsRow) (n : Str)
    (hno : ∀ raw, row.fullName = some raw → jsTrim raw ≠ n) :
    pGet (ratingsStep m row) n = pGet m n ∧ pHas (ratingsStep m row) n = pHas m n := by
  unfold ratingsStep
  cases hr : row.fullName with
  | none => exact ⟨rfl, rfl⟩
  | some raw =>
    by_cases he : (jsTrim raw).isEmpty = true
    · simp [he]
    · have hkey := hno raw hr
      simp [he, pGet_pSet_ne _ _ _ _ hkey, pHas_pSet_ne _ _ _ _ hkey]

/-- A comments row that does not carry the (trimmed) name `n` leaves the
entry at `n` alone. -/
theorem commentsStep_preserve (m : PMap) (row : CommentsRow) (n : Str)
    (hno : ∀ raw, row.professor_name = some raw → jsTrim raw ≠ n) :
    pGet (commentsStep m row) n = pGet m n ∧ pHas (commentsStep m row) n = pHas m n := by
  unfold commentsStep
  cases hr : row.professor_name with
  | none => exact ⟨rfl, rfl⟩
  | some raw =>
    by_cases he : (jsTrim raw).isEmpty = true
    · simp [he]
    · have hkey := hno raw hr
      by_cases hhas : pHas m (jsTrim raw) = true
      · cases hget : pGet m (jsTrim raw) with
        | none => simp [he, hhas, hget]
        | some p =>
          simp [he, hhas, hget, pGet_pSet_ne _ _ _ _ hkey, pHas_pSet_ne _ _ _ _ hkey]
      · have hhas' : pHas m (jsTrim raw) = false := by
          cases hv : pHas m (jsTrim raw) with
          | false => rfl
          | true => exact absurd hv hhas
        simp [he, hhas', pGet_pSet_self, pGet_pSet_ne _ _ _ _ hkey,
          pHas_pSet_ne _ _ _ _ hkey]

theorem ratingsFold_preserve (rows : List RatingsRow) (m : PMap) (n : Str)
    (hno : ∀ row ∈ rows, ∀ raw, row.fullName = some raw → jsTrim raw ≠ n) :
    pGet (rows.foldl ratingsStep m) n = pGet m n ∧
      pHas (rows.foldl ratingsStep m) n = pHas m n := by
  induction rows generalizing m with
  | nil => exact ⟨rfl, rfl⟩
  | cons r rs ih =>
    have h1 := ratingsStep_preserve m r n (hno r (List.mem_cons_self _ _))
    have h2 := ih (ratingsStep m r) (fun row hrow => hno row (List.mem_cons_of_mem _ hrow))
    exact ⟨h2.1.trans h1.1, h2.2.trans h1.2⟩

theorem commentsFold_preserve (rows : List CommentsRow) (m : PMap) (n : Str)
    (hno : ∀ row ∈ rows, ∀ raw, row.professor_name = some raw → jsTrim raw ≠ n) :
    pGet (rows.foldl commentsStep m) n = pGet m n ∧
      pHas (rows.foldl commentsStep m) n = pHas m n := by
  induction rows generalizing m with
  | nil => exact ⟨rfl, rfl⟩
  | cons r rs ih =>
    have h1 := commentsStep_preserve m r n (hno r (List.mem_cons_self _ _))
    have h2 := ih (commentsStep m r) (fun row hrow => hno row (List.mem_cons_of_mem _ hrow))
    exact ⟨h2.1.trans h1.1, h2.2.trans h1.2⟩

theorem sameCore_refl (p : ProfRaw) : sameCore p p := ⟨rfl, rfl, rfl, rfl, rfl, rfl⟩

theorem sameCore_trans {a b c : ProfRaw} (h1 : sameCore a b) (h2 : sameCore b c) :
    sameCore a c :=
  ⟨h1.1.trans h2.1, h1.2.1.trans h2.2.1, h1.2.2.1.trans h2.2.2.1,
    h1.2.2.2.1.trans h2.2.2.2.1, h1.2.2.2.2.1.trans h2.2.2.2.2.1,
    h1.2.2.2.2.2.trans h2.2.2.2.2.2⟩

/-- One comments row keeps the entry at `n` present with its core fields. -/
theorem commentsStep_keep_core (m : PMap) (r : CommentsRow) (n : Str) (p : ProfRaw)
    (hget : pGet m n = some p) :
    ∃ q, pGet (commentsStep m r) n = some q ∧ sameCore q p := by
  cases hr : r.professor_name with
  | none =>
    refine ⟨p, ?_, sameCore_refl p⟩
    unfold commentsStep
    rw [hr]
    exact hget
  | some raw =>
    by_cases he : (jsTrim raw).isEmpty = true
    · refine ⟨p, ?_, sameCore_refl p⟩
      unfold commentsStep
      rw [hr]
      simp only [he, if_true]
      exact hget
    · have he' : (jsTrim raw).isEmpty = false := by
        cases hv : (jsTrim raw).isEmpty with
        | false => rfl
        | true => exact absurd hv he
      by_cases hkey : jsTrim raw = n
      · have hget2 : pGet m (jsTrim raw) = some p := by
          rw [hkey]
          exact hget
        refine ⟨pushComment r p, ?_, pushComment_fields r p⟩
        rw [commentsStep_existing m r raw p hr he' hget2, hkey]
        exact pGet_pSet_self _ _ _
      · refine ⟨p, ?_, sameCore_refl p⟩
        have hno : ∀ raw2, r.professor_name = some raw2 → jsTrim raw2 ≠ n := by
          intro raw2 hraw2
          rw [hr] at hraw2
          injection hraw2 with hh
          rw [← hh]
          exact hkey
        rw [(commentsStep_preserve m r n hno).1]
        exact hget

/-- A whole comments pass keeps the entry at `n` present with its core fields. -/
theorem commentsFold_keep_core (rows : List CommentsRow) (m : PMap) (n : Str) (p : ProfRaw)
    (hget : pGet m n = some p) :
    ∃ q, pGet (rows.foldl commentsStep m) n = some q ∧ sameCore q p := by
  induction rows generalizing m p with
  | nil => exact ⟨p, hget, sameCore_refl p⟩
  | cons r rs ih =>
    obtain ⟨p1, hp1, hc1⟩ := commentsStep_keep_core m r n p hget
    obtain ⟨q, hq, hcq⟩ := ih (commentsStep m r) p1 hp1
    exact ⟨q, hq, sameCore_trans hcq hc1⟩

/-- **C8** (amended): a record created by a ratings row takes its permalink
from the row's `id` field unconditionally — the literal `"undefined"` is
interpolated when the identifier is absent — while a record synthesized by a
comments row uses the row's identifier when it is a non-empty string and the
slugified professor name otherwise.  (As stated the claim fails for ratings
rows without an identifier: see the counterexample.) -/
theorem claim_permalink_derivation (m : PMap) (row : RatingsRow) (crow : CommentsRow)
    (raw craw : Str) (hr : row.fullName = some raw) (hrname : jsTrim raw ≠ [])
    (hc : crow.professor_name = some craw) (hcname : jsTrim craw ≠ [])
    (habs : pHas m (jsTrim craw) = false) :
    (pGet (ratingsStep m row) (jsTrim raw)).map ProfRaw.link
        = some (urlBase ++ jsUndefStr row.id) ∧
    (pGet (commentsStep m crow) (jsTrim craw)).map ProfRaw.link
        = some (urlBase ++ jsOrStr crow.professor_id (slugify (jsTrim craw))) := by
  have hre : (jsTrim raw).isEmpty = false := by
    cases hv : (jsTrim raw).isEmpty with
    | false => rfl
    | true => exact absurd (List.isEmpty_iff.mp hv) hrname
  have hce : (jsTrim craw).isEmpty = false := by
    cases hv : (jsTrim craw).isEmpty with
    | false => rfl
    | true => exact absurd (List.isEmpty_iff.mp hv) hcname
  constructor
  · rw [ratingsStep_eq_set m row raw hr hre, pGet_pSet_self]
    rfl
  · rw [commentsStep_new m crow craw hc hce habs, pGet_pSet_self]
    have hl := (pushComment_fields crow (newCommentProf crow (jsTrim craw))).2.2.2.2.2
    show some ((pushComment crow (newCommentProf crow (jsTrim craw))).link)
        = some (urlBase ++ jsOrStr crow.professor_id (slugify (jsTrim craw)))
    rw [hl]
    rfl

/-- Counterexample to C8 as stated: a ratings row with no identifier yields
the permalink `.../professor/undefined`, not a slug of the name. -/
theorem claim_permalink_derivation_cex :
    demoRatingsNoId.id = none ∧
    (convertCSVToProfessorData [demoRatingsNoId] []).map Prof.link
        = ["https://polyratings.dev/professor/undefined".data] ∧
    slugify (jsTrim "Jane Doe".data) = "jane-doe".data ∧
    ("https://polyratings.dev/professor/undefined".data : Str)
        ≠ urlBase ++ slugify (jsTrim "Jane Doe".data) := by
  decide

/-- Witness for the amended C8 at concrete rows. -/
theorem claim_permalink_derivation_witness :
    (pGet (ratingsStep [] demoRatingsId) (jsTrim "A B".data)).map ProfRaw.link
        = some (urlBase ++ jsUndefStr demoRatingsId.id) ∧
    (pGet (commentsStep [] demoCommentsNoId) (jsTrim "Jane A. Doe".data)).map ProfRaw.link
        = some (urlBase ++ jsOrStr demoCommentsNoId.professor_id
            (slugify (jsTrim "Jane A. Doe".data))) :=
  claim_permalink_derivation [] demoRatingsId demoCommentsNoId "A B".data "Jane A. Doe".data
    rfl (by decide) rfl (by decide) rfl

/-- **C9** (amended): a comments row whose trimmed name is non-empty, absent
from the ratings-derived records, carrying no truthy identifier, and first
among the comments rows with that name synthesizes a record with zeroed
rating fields whose permalink embeds the slug (lowercase, whitespace runs
replaced by single hyphens, punctuation retained).  (As stated — for every
such row — the claim fails when an earlier comments row with the same name
carried an identifier: see the counterexample.) -/
theorem claim_synthesized_slug_record (ratingsData : List RatingsRow)
    (pre post : List CommentsRow) (r : CommentsRow) (craw : Str)
    (hc : r.professor_name = some craw) (hname : jsTrim craw ≠ [])
    (hid : r.professor_id = none ∨ r.professor_id = some [])
    (hnorat : ∀ row ∈ ratingsData, ∀ raw, row.fullName = some raw → jsTrim raw ≠ jsTrim craw)
    (hnopre : ∀ row ∈ pre, ∀ raw, row.professor_name = some raw → jsTrim raw ≠ jsTrim craw) :
    ∃ p ∈ convertCSVToProfessorData ratingsData (pre ++ r :: post),
      p.name = jsTrim craw ∧ p.rating = 0 ∧ p.numEvals = 0 ∧ p.clarity = 0 ∧
      p.helpfulness = 0 ∧ p.link = urlBase ++ slugify (jsTrim craw) := by
  have hce : (jsTrim craw).isEmpty = false := by
    cases hv : (jsTrim craw).isEmpty with
    | false => rfl
    | true => exact absurd (List.isEmpty_iff.mp hv) hname
  have h0 : pHas (ratingsData.foldl ratingsStep []) (jsTrim craw) = false := by
    rw [(ratingsFold_preserve ratingsData [] (jsTrim craw) hnorat).2]
    rfl
  have h1 : pHas (pre.foldl commentsStep (ratingsData.foldl ratingsStep []))
      (jsTrim craw) = false := by
    rw [(commentsFold_preserve pre _ (jsTrim craw) hnopre).2]
    exact h0
  have hget2 : pGet (commentsStep (pre.foldl commentsStep (ratingsData.foldl ratingsStep [])) r)
      (jsTrim craw) = some (pushComment r (newCommentProf r (jsTrim craw))) := by
    rw [commentsStep_new _ r craw hc hce h1]
    exact pGet_pSet_self _ _ _
  obtain ⟨q, hq, hcq⟩ := commentsFold_keep_core post _ (jsTrim craw) _ hget2
  have hmem : ((jsTrim craw), q) ∈
      (pre ++ r :: post).foldl commentsStep (ratingsData.foldl ratingsStep []) := by
    rw [List.foldl_append]
    exact pGet_mem _ _ _ hq
  have hcore := sameCore_trans hcq (pushComment_fields r (newCommentProf r (jsTrim craw)))
  obtain ⟨hn, hrat, hnum, hcl, hhelp, hlink⟩ := hcore
  have hidlink : (newCommentProf r (jsTrim craw)).link = urlBase ++ slugify (jsTrim craw) := by
    rcases hid with h | h <;> simp [newCommentProf, jsOrStr, h]
  refine ⟨finalizeProf q, ?_, hn, hrat, hnum, hcl, hhelp, hlink.trans hidlink⟩
  unfold convertCSVToProfessorData
  exact List.mem_map_of_mem _ hmem

/-- Counterexample to C9 as stated: the second comments row for
"Jane A. Doe" has no identifier and the name is absent from ratings, yet the
only record for that name keeps the permalink built from the first row's
identifier `42`, not the slug. -/
theorem claim_synthesized_slug_record_cex :
    demoCommentsNoId.professor_id = none ∧
    jsTrim "Jane A. Doe".data ≠ [] ∧
    (convertCSVToProfessorData [] [demoCommentsId, demoCommentsNoId]).map
        (fun p => (p.name, p.link))
      = [("Jane A. Doe".data, urlBase ++ "42".data)] ∧
    ¬ ∃ p ∈ convertCSVToProfessorData [] [demoCommentsId, demoCommentsNoId],
        p.link = urlBase ++ slugify (jsTrim "Jane A. Doe".data) := by
  decide

/-- Witness for the amended C9: a lone comments row for "Jane A. Doe". -/
theorem claim_synthesized_slug_record_witness :
    ∃ p ∈ convertCSVToProfessorData [] [demoCommentsNoId],
      p.name = jsTrim "Jane A. Doe".data ∧ p.rating = 0 ∧ p.numEvals = 0 ∧ p.clarity = 0 ∧
      p.helpfulness = 0 ∧ p.link = urlBase ++ slugify (jsTrim "Jane A. Doe".data) :=
  claim_synthesized_slug_record [] [] [] demoCommentsNoId "Jane A. Doe".data rfl (by decide)
    (Or.inl rfl) (by simp) (by simp)

end PolyratingsAI
